import Mathlib

/-!
Verification development for the NetCDF → COG streamer pipeline
(`src/streamer/streamer.py`).

The embedding models strings as `List Char`.  Python's `re` usage in the
source is restricted to patterns obtained from filename templates by
replacing the placeholders `{x}`, `{y}`, `{time}` and `{}` with the
character classes `-?[0-9]*` (captured or not); every other template
character is matched literally (the product templates contain no further
regex metacharacters apart from `.`, whose regex reading only broadens
matching).  `re.match` anchors at the start of the string only, which the
matcher below reproduces; greedy matching with backtracking is reproduced
by trying candidate digit runs longest first.

External effects (GDAL subprocess invocations, filesystem renames, the
`aws s3 sync` call) are modelled as events; whether an external command
raises is supplied by Boolean oracles, so theorems quantify over every
possible pattern of external failures.
-/

deriving instance DecidableEq for Except

def strL (s : String) : List Char := s.data

def obr : Char := Char.ofNat 123

def cbr : Char := Char.ofNat 125

/-- Model of `os.path.basename`: the part of the path after the last `/`. -/
def basename (s : List Char) : List Char :=
  (s.reverse.takeWhile (fun c => c ≠ '/')).reverse

/-- Model of `s.split(sep)[-1]`: the part of `s` after the last `sep`. -/
def afterLast (sep : Char) (s : List Char) : List Char :=
  (s.reverse.takeWhile (fun c => c ≠ sep)).reverse

/-- Tokens of a filename template: literal characters and `{name}` placeholders. -/
inductive TTok
  | lit (c : Char)
  | ph (nm : List Char)
deriving DecidableEq, Repr

/-- Fuelled template scanner (fuel bounds the number of consumed characters,
`s.length` always suffices). -/
def tmplTokensF : Nat → List Char → List TTok
  | 0, _ => []
  | _, [] => []
  | fuel + 1, c :: rest =>
    if c = obr then
      TTok.ph (rest.takeWhile (fun d => d ≠ cbr)) ::
        tmplTokensF fuel ((rest.dropWhile (fun d => d ≠ cbr)).drop 1)
    else
      TTok.lit c :: tmplTokensF fuel rest

/-- Scan a template string into literal characters and placeholders.  This
reproduces the sequential `template.replace("{x}", ...)` calls of
`COGProductConfiguration._extract_x_y` / `_extract_x_y_time`, none of whose
replacement strings contain a further placeholder. -/
def tmplTokens (s : List Char) : List TTok := tmplTokensF s.length s

/-- Names of the capturing groups appearing in compiled templates. -/
inductive GName
  | gx
  | gy
  | gtime
deriving DecidableEq, Repr

/-- Items of a compiled pattern: a literal character, a capturing group
`(?P<g>-?[0-9]*)`, or the non-capturing run `[0-9]*`. -/
inductive PatItem
  | lit (c : Char)
  | grp (g : GName)
  | anon
deriving DecidableEq, Repr

/-- All ways to split off a leading (possibly empty) digit run, longest run
first — the order in which a greedy `[0-9]*` offers candidates while
backtracking. -/
def splitsDesc (s : List Char) : List (List Char × List Char) :=
  let d := s.takeWhile Char.isDigit
  let r := s.dropWhile Char.isDigit
  (List.range (d.length + 1)).map (fun k => (d.take (d.length - k), d.drop (d.length - k) ++ r))

/-- Candidates for `-?[0-9]*`: first with the optional minus consumed
(greedy `?`), then without. -/
def signedCands (s : List Char) : List (List Char × List Char) :=
  match s with
  | '-' :: rest => ((splitsDesc rest).map (fun pr => ('-' :: pr.1, pr.2))) ++ splitsDesc s
  | _ => splitsDesc s

/-- First successful result of `f` over a candidate list (backtracking). -/
def firstSome {α β : Type} : List α → (α → Option β) → Option β
  | [], _ => none
  | a :: rest, f =>
    match f a with
    | some b => some b
    | none => firstSome rest f

/-- The `groupdict()` of a successful match. -/
abbrev Groups := List (GName × List Char)

def lookupG (g : GName) : Groups → Option (List Char)
  | [] => none
  | (g2, v) :: rest => if g2 = g then some v else lookupG g rest

/-- Backtracking matcher for compiled template patterns, anchored at the
start of the input only (the semantics of `re.match`): an exhausted pattern
succeeds regardless of remaining input. -/
def reMatch : List PatItem → List Char → Option Groups
  | [], _ => some []
  | PatItem.lit c :: ps, s =>
    match s with
    | [] => none
    | d :: s2 => if d = c then reMatch ps s2 else none
  | PatItem.anon :: ps, s => firstSome (splitsDesc s) (fun pr => reMatch ps pr.2)
  | PatItem.grp g :: ps, s =>
    firstSome (signedCands s) (fun pr => (reMatch ps pr.2).map (fun gs => (g, pr.1) :: gs))

/-- Errors raised by the streamer core.  `templateMismatch` stands for the
`RuntimeError("There is no tile index values ...")` raised by the tile
identity resolver, `badTimeType` for `RuntimeError("Incorrect product
time_type")`, `yamlFailure` for an (uncaught) exception inside
`_dataset_to_yaml`, and `workerFailure` for any other unhandled exception
inside a worker process. -/
inductive StreamErr
  | templateMismatch
  | badTimeType
  | yamlFailure
  | workerFailure
deriving DecidableEq, Repr

/-- Pattern items a template token compiles to in `_extract_x_y`
(`{time}` and `{}` both become the non-capturing `[0-9]*`; an unknown
placeholder stays literal text). -/
def phItemsXY : TTok → List PatItem
  | TTok.lit c => [PatItem.lit c]
  | TTok.ph nm =>
    if nm = ['x'] then [PatItem.grp GName.gx]
    else if nm = ['y'] then [PatItem.grp GName.gy]
    else if nm = strL "time" then [PatItem.anon]
    else if nm = [] then [PatItem.anon]
    else (obr :: (nm ++ [cbr])).map PatItem.lit

/-- Pattern items a template token compiles to in `_extract_x_y_time`
(`{time}` becomes a capturing group). -/
def phItemsXYT : TTok → List PatItem
  | TTok.lit c => [PatItem.lit c]
  | TTok.ph nm =>
    if nm = ['x'] then [PatItem.grp GName.gx]
    else if nm = ['y'] then [PatItem.grp GName.gy]
    else if nm = strL "time" then [PatItem.grp GName.gtime]
    else if nm = [] then [PatItem.anon]
    else (obr :: (nm ++ [cbr])).map PatItem.lit

/-- Compiled pattern of `COGProductConfiguration._extract_x_y`. -/
def compileXY (tmpl : List Char) : List PatItem :=
  ((tmplTokens tmpl).map phItemsXY).flatten

/-- Compiled pattern of `COGProductConfiguration._extract_x_y_time`. -/
def compileXYT (tmpl : List Char) : List PatItem :=
  ((tmplTokens tmpl).map phItemsXYT).flatten

/-- Model of `COGProductConfiguration._extract_x_y`: match the compiled
template against `basename(item)`; fail unless the match succeeded and the
groupdict carries both `x` and `y`. -/
def extract_x_y (item tmpl : List Char) : Except StreamErr (List Char × List Char) :=
  match reMatch (compileXY tmpl) (basename item) with
  | none => Except.error StreamErr.templateMismatch
  | some gs =>
    match lookupG GName.gx gs, lookupG GName.gy gs with
    | some vx, some vy => Except.ok (vx, vy)
    | _, _ => Except.error StreamErr.templateMismatch

/-- Model of `COGProductConfiguration._extract_x_y_time`: as
`extract_x_y` but `{time}` captures and must be present in the groupdict. -/
def extract_x_y_time (item tmpl : List Char) :
    Except StreamErr (List Char × List Char × List Char) :=
  match reMatch (compileXYT tmpl) (basename item) with
  | none => Except.error StreamErr.templateMismatch
  | some gs =>
    match lookupG GName.gx gs, lookupG GName.gy gs, lookupG GName.gtime gs with
    | some vx, some vy, some vt => Except.ok (vx, vy, vt)
    | _, _, _ => Except.error StreamErr.templateMismatch

example :
    extract_x_y (strL "dir/LS_WATER_3577_9_-39_20180506102018_v1.nc")
      (strL "LS_WATER_3577_\x7bx\x7d_\x7by\x7d_\x7btime\x7d_v\x7b\x7d.nc") =
    Except.ok (strL "9", strL "-39") := by decide

example :
    extract_x_y_time (strL "LS_WATER_3577_3_-40_20180102030405")
      (strL "LS_WATER_3577_\x7bx\x7d_\x7by\x7d_\x7btime\x7d") =
    Except.ok (strL "3", strL "-40", strL "20180102030405") := by decide

example :
    extract_x_y_time (strL "bogus_name.nc")
      (strL "LS_WATER_3577_\x7bx\x7d_\x7by\x7d_\x7btime\x7d") =
    Except.error StreamErr.templateMismatch := by decide

/-- Model of a product entry of the configuration mapping (the keys consumed
by the streamer core: `time_type`, `src_template`, `dest_template`,
`aws_dir`, `bucket`).  `time_type` stays a string because the source
compares it against the literals `'flat'` and `'timed'` and raises on
anything else. -/
structure Cfg where
  time_type : List Char
  src_template : List Char
  dest_template : List Char
  aws_dir : List Char
  bucket : List Char

/-- Model of Python `str.format` on the destination templates: substitute
`{x}`, `{y}` and `{time}`; other text is kept. -/
def formatT (tmpl x y : List Char) (t : Option (List Char)) : List Char :=
  ((tmplTokens tmpl).map (fun tk =>
    match tk with
    | TTok.lit c => [c]
    | TTok.ph nm =>
      if nm = ['x'] then x
      else if nm = ['y'] then y
      else if nm = strL "time" then t.getD []
      else obr :: (nm ++ [cbr]))).flatten

/-- Model of `COGProductConfiguration.aws_dir`: the AWS directory suffix of
a dataset prefix.  For a `timed` product the year/month/day are the fixed
width slices `time_stamp[0:4]`, `[4:6]`, `[6:8]`. -/
def aws_dir (cfg : Cfg) (item : List Char) : Except StreamErr (List Char) :=
  if cfg.time_type = strL "flat" then
    match extract_x_y item cfg.dest_template with
    | Except.error e => Except.error e
    | Except.ok (x, y) =>
      Except.ok (strL "x_" ++ x ++ strL "/y_" ++ y)
  else if cfg.time_type = strL "timed" then
    match extract_x_y_time item cfg.dest_template with
    | Except.error e => Except.error e
    | Except.ok (x, y, ts) =>
      Except.ok (strL "x_" ++ x ++ strL "/y_" ++ y ++ strL "/" ++ ts.take 4 ++
        strL "/" ++ (ts.drop 4).take 2 ++ strL "/" ++ (ts.drop 6).take 2)
  else Except.error StreamErr.badTimeType

/-- Model of `COGProductConfiguration.aws_destination`:
`bucket + '/' + aws_dir + '/' + dir`.  (Defined by the source but never
called by `convert_cog`.) -/
def aws_destination (cfg : Cfg) (item : List Char) : Except StreamErr (List Char) :=
  match aws_dir cfg item with
  | Except.error e => Except.error e
  | Except.ok d => Except.ok (cfg.bucket ++ strL "/" ++ cfg.aws_dir ++ strL "/" ++ d)

/-- Model of `COGProductConfiguration.get_unstacked_names` with no
year/month filter (the arguments `convert_cog` passes).  For a timed
product the canonical `YYYYMMDDHHMMSS` timestamps read from the NetCDF
`time` variable are supplied as the external input `times`. -/
def get_unstacked_names (cfg : Cfg) (times : List (List Char)) (netcdf_file : List Char) :
    Except StreamErr (List (List Char)) :=
  match extract_x_y netcdf_file cfg.src_template with
  | Except.error e => Except.error e
  | Except.ok (x, y) =>
    if cfg.time_type = strL "flat" then
      Except.ok [formatT cfg.dest_template x y none]
    else
      Except.ok (times.map (fun ts => formatT cfg.dest_template x y (some ts)))

/-- Events of one scheduler/converter run.  `bandRun` records an attempted
per-band pipeline (`gdal_translate` / `gdaladdo` / final `gdal_translate`):
`ok = true` means all three external commands succeeded and the band file
was written at `out`; `ok = false` means some step raised, which
`_dataset_to_cog` catches and logs inside the band loop. -/
inductive Ev
  | mkdirEv (p : List Char)
  | yamlWrite (p : List Char)
  | bandRun (p src out : List Char) (n : Nat) (ok : Bool)
  | cleanup (p : List Char)
  | markerWrite (p content : List Char)
  | renameToUpload (p : List Char)
deriving DecidableEq, Repr

/-- Output file name of one band: `prefix + '_' + dts[0].split(':')[-1] + '.tif'`. -/
def outName (pfx dts : List Char) : List Char :=
  pfx ++ '_' :: afterLast ':' dts ++ strL ".tif"

/-- The band loop of `COGNetCDF._dataset_to_cog` over the retained
subdatasets: each band is attempted in turn; a failure (oracle `bf`) is
caught inside the loop and only logged, so iteration continues. -/
def bandLoop (bf : List Char → Bool) (pfx : List Char) : List (List Char) → Nat → List Ev
  | [], _ => []
  | dts :: rest, n =>
    Ev.bandRun pfx dts (outName pfx dts) n (!bf (outName pfx dts)) :: bandLoop bf pfx rest n

/-- The per-dataset loop of `COGNetCDF.netcdf_to_cog` over the enumerated
prefixes, starting at index `i0`.  For each prefix: make the directory,
write the metadata yaml (an exception there — oracle `yf` — is uncaught
and aborts the whole call), run `_dataset_to_cog` with band number
`index + 1` over `subdatasets[:-1]`, clean up the GDAL xml sidecars.
Returns the events together with `generated_datasets` (the prefix list) or
the uncaught error. -/
def goConv (bf yf : List Char → Bool) (subs : List (List Char)) :
    Nat → List (List Char) → List Ev × Except StreamErr (List (List Char))
  | _, [] => ([], Except.ok [])
  | i, p :: rest =>
    if yf p then
      ([Ev.mkdirEv p], Except.error StreamErr.yamlFailure)
    else
      let seg := Ev.mkdirEv p :: Ev.yamlWrite p ::
        (bandLoop bf p subs.dropLast (i + 1) ++ [Ev.cleanup p])
      match goConv bf yf subs (i + 1) rest with
      | (evs2, Except.ok ps) => (seg ++ evs2, Except.ok (p :: ps))
      | (evs2, Except.error e) => (seg ++ evs2, Except.error e)

/-- Model of `COGNetCDF.netcdf_to_cog` (one worker's unit of work). -/
def netcdfRun (bf yf : List Char → Bool) (cfg : Cfg) (times : List (List Char))
    (subs : List (List Char)) (file : List Char) :
    List Ev × Except StreamErr (List (List Char)) :=
  match get_unstacked_names cfg times file with
  | Except.error e => ([], Except.error e)
  | Except.ok pfxs => goConv bf yf subs 0 pfxs

/-- Post-processing `convert_cog` performs on one completed future: for
each generated prefix, write the `upload-destination.txt` marker with the
content `product_config.aws_dir(prefix)` and rename the dataset directory
from `WORKING` into `TO_UPLOAD`.  An exception from `aws_dir` is uncaught
and aborts the command. -/
def postAll (cfg : Cfg) : List (List Char) → List Ev × Option StreamErr
  | [] => ([], none)
  | p :: rest =>
    match aws_dir cfg p with
    | Except.error e => ([], some e)
    | Except.ok d =>
      let (evs, err) := postAll cfg rest
      (Ev.markerWrite p d :: Ev.renameToUpload p :: evs, err)

/-- The scheduler loop of `convert_cog` draining `as_completed` futures in
some completion order: `future.result()` re-raises a worker's unhandled
exception, and nothing catches it, so the loop aborts there and the
remaining futures are never post-processed. -/
def drainResults (cfg : Cfg) :
    List (Except StreamErr (List (List Char))) → List Ev × Option StreamErr
  | [] => ([], none)
  | Except.error e :: _ => ([], some e)
  | Except.ok ps :: rest =>
    let (evs, err) := postAll cfg ps
    match err with
    | some e => (evs, some e)
    | none =>
      let (evs2, err2) := drainResults cfg rest
      (evs ++ evs2, err2)

/-- End-to-end trace of one input file: the worker's conversion followed
(on success) by the scheduler's marker-write and rename post-processing. -/
def fileRun (bf yf : List Char → Bool) (cfg : Cfg) (times : List (List Char))
    (subs : List (List Char)) (file : List Char) : List Ev × Option StreamErr :=
  match netcdfRun bf yf cfg times subs file with
  | (evs, Except.error e) => (evs, some e)
  | (evs, Except.ok ps) =>
    let (evs2, err) := postAll cfg ps
    (evs ++ evs2, err)

/-- Files created by a trace: the yaml metadata document, each band file
whose pipeline succeeded, and the upload destination marker. -/
def writesOfEvents : List Ev → List (List Char)
  | [] => []
  | Ev.yamlWrite p :: rest => (p ++ strL ".yaml") :: writesOfEvents rest
  | Ev.bandRun _ _ out _ true :: rest => out :: writesOfEvents rest
  | Ev.markerWrite p _ :: rest => (p ++ strL "/upload-destination.txt") :: writesOfEvents rest
  | _ :: rest => writesOfEvents rest

/-- Filesystem contents after replaying a trace over initial contents `fs`. -/
def fsAfterRun (fs : List (List Char)) (evs : List Ev) : List (List Char) :=
  fs ++ writesOfEvents evs

/-- The `wofs_albers` product entry of `DEFAULT_CONFIG` (which carries no
`bucket` key; the bucket from the docstring example config is used where a
bucket is needed). -/
def wofsCfg : Cfg where
  time_type := strL "timed"
  src_template := strL "LS_WATER_3577_\x7bx\x7d_\x7by\x7d_\x7btime\x7d_v\x7b\x7d.nc"
  dest_template := strL "LS_WATER_3577_\x7bx\x7d_\x7by\x7d_\x7btime\x7d"
  aws_dir := strL "WOfS/WOFLs/v2.1.0/combined"
  bucket := strL "s3://dea-public-data-dev"

example :
    aws_dir wofsCfg (strL "LS_WATER_3577_3_-40_20180102030405") =
    Except.ok (strL "x_3/y_-40/2018/01/02") := by decide

example :
    get_unstacked_names wofsCfg [strL "20180506102018"]
      (strL "LS_WATER_3577_9_-39_20180506102018_v1.nc") =
    Except.ok [strL "LS_WATER_3577_9_-39_20180506102018"] := by decide

/-- Marker file read by the Upload Watcher: `f.read().splitlines()[0]`
(first line of the marker's text). -/
def firstLine (s : List Char) : List Char := s.takeWhile (fun c => c ≠ '\n')

/-- The sync target the Upload Watcher passes to `aws s3 sync`:
`f'{upload_destination}/{dest_path}'` where `dest_path` is the first line
of the marker — the CLI upload destination is prefixed to the marker's
content. -/
def syncTarget (upload_destination marker : List Char) : List Char :=
  upload_destination ++ '/' :: firstLine marker

/-- Where a TO_UPLOAD dataset directory ends up after the watcher's
processing attempt. -/
inductive Outcome
  | toUpload
  | failedDir
  | completeDir
  | deleted
deriving DecidableEq, Repr

/-- Success/failure oracle for the external commands one watcher iteration
may run: the `aws s3 sync`, the `mv` into FAILED, the `mv` into COMPLETE,
and the recursive `rm`. -/
structure UpOracle where
  syncOk : Bool
  mvFailedOk : Bool
  mvCompleteOk : Bool
  rmOk : Bool

/-- Model of `run_command` / `run(..., check=True)`: raises iff the
command fails. -/
def runCmd (ok : Bool) : Except Unit Unit :=
  if ok then Except.ok () else Except.error ()

/-- One dataset's processing in a poll cycle of `upload`, mirroring the
try/except nesting of the source: without a marker nothing happens; a sync
failure leads to an attempted `mv` into FAILED (whose own failure is only
logged, leaving the dataset in TO_UPLOAD); after a successful sync the
dataset is moved to COMPLETE (retention) or removed, and a failure of that
step is only logged, leaving the dataset in TO_UPLOAD. -/
def processDataset (markerPresent retain : Bool) (o : UpOracle) : Outcome :=
  if markerPresent then
    match runCmd o.syncOk with
    | Except.error _ =>
      match runCmd o.mvFailedOk with
      | Except.error _ => Outcome.toUpload
      | Except.ok _ => Outcome.failedDir
    | Except.ok _ =>
      if retain then
        match runCmd o.mvCompleteOk with
        | Except.error _ => Outcome.toUpload
        | Except.ok _ => Outcome.completeDir
      else
        match runCmd o.rmOk with
        | Except.error _ => Outcome.toUpload
        | Except.ok _ => Outcome.deleted
  else Outcome.toUpload

/-- The idle threshold of the watcher:
`max_wait_time_without_upload = timedelta(minutes=5)`, in seconds. -/
def maxWaitWithoutUpload : Nat := 300

/-- Watcher loop state.  `time` is wall-clock seconds (one poll cycle =
one `time.sleep(1)` = one second; external command durations are
abstracted away), `timeLastUpload` is the source's `time_last_upload`
variable, `lastSuccess` is a ghost field recording when a dataset was last
processed to a successful disposition, and `stopped` records that the
`break` fired. -/
structure WState where
  time : Nat
  timeLastUpload : Option Nat
  lastSuccess : Option Nat
  stopped : Bool
deriving DecidableEq, Repr

/-- External schedule of the watcher: how many dataset directories `ls`
returns in cycle `k`, and how many of them are processed to a successful
disposition in that cycle (a ghost quantity — the source's
`time_last_upload` update does not depend on it). -/
structure WSched where
  listed : Nat → Nat
  okProcessed : Nat → Nat

/-- One poll cycle of the `upload` while-loop: iterate over the listed
datasets (`time_last_upload = datetime.now()` runs once per listed dataset,
whatever its processing outcome), sleep one second, and break once
`datetime.now() - time_last_upload` exceeds the idle threshold.  Once
stopped, the state is frozen. -/
def wcycle (listed okp : Nat) (s : WState) : WState :=
  if s.stopped then s
  else
    let tlu := if 0 < listed then some s.time else s.timeLastUpload
    let ls := if 0 < okp then some s.time else s.lastSuccess
    let t := s.time + 1
    let stop :=
      match tlu with
      | some tl => decide (maxWaitWithoutUpload < t - tl)
      | none => false
    ⟨t, tlu, ls, stop⟩

/-- The watcher loop after `n` poll cycles. -/
def runW (sch : WSched) : Nat → WState
  | 0 => ⟨0, none, none, false⟩
  | n + 1 => wcycle (sch.listed n) (sch.okProcessed n) (runW sch n)

theorem basename_idem (s : List Char) : basename (basename s) = basename s := by
  unfold basename
  rw [List.reverse_reverse]
  congr 1
  rw [List.takeWhile_eq_self_iff]
  intro x hx
  simpa using List.mem_takeWhile_imp hx

theorem extract_x_y_some {item tmpl : List Char} {gs : Groups}
    (hgs : reMatch (compileXY tmpl) (basename item) = some gs) :
    extract_x_y item tmpl =
      match lookupG GName.gx gs, lookupG GName.gy gs with
      | some vx, some vy => Except.ok (vx, vy)
      | _, _ => Except.error StreamErr.templateMismatch := by
  unfold extract_x_y
  rw [hgs]

theorem extract_x_y_time_some {item tmpl : List Char} {gs : Groups}
    (hgs : reMatch (compileXYT tmpl) (basename item) = some gs) :
    extract_x_y_time item tmpl =
      match lookupG GName.gx gs, lookupG GName.gy gs, lookupG GName.gtime gs with
      | some vx, some vy, some vt => Except.ok (vx, vy, vt)
      | _, _, _ => Except.error StreamErr.templateMismatch := by
  unfold extract_x_y_time
  rw [hgs]

/-- C7: the tile identity resolver is deterministic (a pure function of the
filename and template, with no side effects), applies the compiled pattern
to the filename's base name (directory path stripped), and fails with the
template mismatch error whenever the pattern does not match the base name
or the match lacks a required placeholder (`x`, `y`, and `time` for the
timed variant). -/
theorem tile_resolver_contract : ∀ item tmpl : List Char,
    (extract_x_y item tmpl = extract_x_y item tmpl ∧
      extract_x_y_time item tmpl = extract_x_y_time item tmpl) ∧
    (extract_x_y item tmpl = extract_x_y (basename item) tmpl ∧
      extract_x_y_time item tmpl = extract_x_y_time (basename item) tmpl) ∧
    (reMatch (compileXY tmpl) (basename item) = none →
      extract_x_y item tmpl = Except.error StreamErr.templateMismatch) ∧
    (reMatch (compileXYT tmpl) (basename item) = none →
      extract_x_y_time item tmpl = Except.error StreamErr.templateMismatch) ∧
    (∀ gs, reMatch (compileXY tmpl) (basename item) = some gs →
      (lookupG GName.gx gs = none ∨ lookupG GName.gy gs = none) →
      extract_x_y item tmpl = Except.error StreamErr.templateMismatch) ∧
    (∀ gs, reMatch (compileXYT tmpl) (basename item) = some gs →
      (lookupG GName.gx gs = none ∨ lookupG GName.gy gs = none ∨
        lookupG GName.gtime gs = none) →
      extract_x_y_time item tmpl = Except.error StreamErr.templateMismatch) := by
  intro item tmpl
  refine ⟨⟨rfl, rfl⟩, ⟨?_, ?_⟩, ?_, ?_, ?_, ?_⟩
  · unfold extract_x_y
    rw [basename_idem]
  · unfold extract_x_y_time
    rw [basename_idem]
  · intro h
    unfold extract_x_y
    rw [h]
  · intro h
    unfold extract_x_y_time
    rw [h]
  · intro gs hgs hmiss
    rw [extract_x_y_some hgs]
    cases hx2 : lookupG GName.gx gs <;> cases hy2 : lookupG GName.gy gs <;>
      first
        | rfl
        | (exfalso; rcases hmiss with h | h <;> simp_all)
  · intro gs hgs hmiss
    rw [extract_x_y_time_some hgs]
    cases hx2 : lookupG GName.gx gs <;> cases hy2 : lookupG GName.gy gs <;>
      cases ht2 : lookupG GName.gtime gs <;>
      first
        | rfl
        | (exfalso; rcases hmiss with h | h | h <;> simp_all)

/-- Witness for `tile_resolver_contract` at concrete inputs: a filename not
matching the template, and a template declaring no `x`/`y` placeholder. -/
theorem tile_resolver_contract_witness :
    (reMatch (compileXYT (strL "LS_WATER_3577_\x7bx\x7d_\x7by\x7d_\x7btime\x7d"))
        (basename (strL "bogus_name.nc")) = none ∧
      extract_x_y_time (strL "bogus_name.nc")
        (strL "LS_WATER_3577_\x7bx\x7d_\x7by\x7d_\x7btime\x7d") =
        Except.error StreamErr.templateMismatch) ∧
    (reMatch (compileXY (strL "abc")) (basename (strL "abc")) = some [] ∧
      extract_x_y (strL "abc") (strL "abc") =
        Except.error StreamErr.templateMismatch) :=
  ⟨⟨by decide,
      (tile_resolver_contract (strL "bogus_name.nc")
          (strL "LS_WATER_3577_\x7bx\x7d_\x7by\x7d_\x7btime\x7d")).2.2.2.1 (by decide)⟩,
    ⟨by decide,
      (tile_resolver_contract (strL "abc") (strL "abc")).2.2.2.2.1 [] (by decide)
        (Or.inl (by decide))⟩⟩

/-- The destination-suffix template named by the specification; the source
hardcodes exactly this shape as the f-string
`f'x_{x}/y_{y}/{year}/{month}/{day}'` in `COGProductConfiguration.aws_dir`. -/
def suffixTemplate : List Char :=
  strL "x_\x7bx\x7d/y_\x7by\x7d/\x7byear\x7d/\x7bmonth\x7d/\x7bday\x7d"

/-- Modelled from the spec: formatting `aws_dir_suffix_template` with the
tile identity's `x`, `y` and the `year`/`month`/`day` fields (used to state
that the source's hardcoded f-string refines the spec's template
formatting). -/
def formatSuffixTmpl (tmpl x y yr mo dy : List Char) : List Char :=
  ((tmplTokens tmpl).map (fun tk =>
    match tk with
    | TTok.lit c => [c]
    | TTok.ph nm =>
      if nm = ['x'] then x
      else if nm = ['y'] then y
      else if nm = strL "year" then yr
      else if nm = strL "month" then mo
      else if nm = strL "day" then dy
      else obr :: (nm ++ [cbr]))).flatten

theorem suffixTemplate_tokens : tmplTokens suffixTemplate =
    [TTok.lit 'x', TTok.lit '_', TTok.ph ['x'], TTok.lit '/',
      TTok.lit 'y', TTok.lit '_', TTok.ph ['y'], TTok.lit '/',
      TTok.ph (strL "year"), TTok.lit '/',
      TTok.ph (strL "month"), TTok.lit '/',
      TTok.ph (strL "day")] := by decide

/-- C8: for a timed product, the resolved remote suffix is the suffix
template `x_{x}/y_{y}/{year}/{month}/{day}` formatted with `x`, `y` and the
year/month/day obtained by fixed-width slicing of the time token's first 8
characters (`ts[0:4]`, `ts[4:6]`, `ts[6:8]`); in particular the identity
`(x="3", y="-40", time="20180102030405")` resolves to
`x_3/y_-40/2018/01/02`. -/
theorem aws_dir_timed_slices :
    (∀ (cfg : Cfg) (item x y ts : List Char),
      cfg.time_type = strL "timed" →
      extract_x_y_time item cfg.dest_template = Except.ok (x, y, ts) →
      aws_dir cfg item =
        Except.ok (formatSuffixTmpl suffixTemplate x y (ts.take 4)
          ((ts.drop 4).take 2) ((ts.drop 6).take 2))) ∧
    aws_dir wofsCfg (strL "LS_WATER_3577_3_-40_20180102030405") =
      Except.ok (strL "x_3/y_-40/2018/01/02") := by
  constructor
  · intro cfg item x y ts htt hext
    unfold aws_dir
    rw [htt, hext]
    simp [formatSuffixTmpl, suffixTemplate_tokens, strL]
  · decide

/-- Witness for `aws_dir_timed_slices` at the concrete identity of the
specification's scenario. -/
theorem aws_dir_timed_slices_witness :
    aws_dir wofsCfg (strL "LS_WATER_3577_3_-40_20180102030405") =
      Except.ok (formatSuffixTmpl suffixTemplate (strL "3") (strL "-40")
        ((strL "20180102030405").take 4) (((strL "20180102030405").drop 4).take 2)
        (((strL "20180102030405").drop 6).take 2)) :=
  aws_dir_timed_slices.1 wofsCfg (strL "LS_WATER_3577_3_-40_20180102030405")
    (strL "3") (strL "-40") (strL "20180102030405") rfl (by decide)

theorem mem_bandLoop (bf : List Char → Bool) (pfx : List Char) :
    ∀ (bl : List (List Char)) (n : Nat) (ev : Ev), ev ∈ bandLoop bf pfx bl n →
      ∃ dts ∈ bl, ev = Ev.bandRun pfx dts (outName pfx dts) n (!bf (outName pfx dts)) := by
  intro bl
  induction bl with
  | nil => intro n ev h; simp [bandLoop] at h
  | cons d rest ih =>
    intro n ev h
    rw [bandLoop] at h
    rcases List.mem_cons.mp h with h | h
    · exact ⟨d, List.mem_cons_self d rest, h⟩
    · obtain ⟨dts, hm, he⟩ := ih n ev h
      exact ⟨dts, List.mem_cons_of_mem _ hm, he⟩

theorem bandLoop_attempted (bf : List Char → Bool) (pfx : List Char) :
    ∀ (bl : List (List Char)) (n : Nat) (dts : List Char), dts ∈ bl →
      Ev.bandRun pfx dts (outName pfx dts) n (!bf (outName pfx dts)) ∈ bandLoop bf pfx bl n := by
  intro bl
  induction bl with
  | nil => intro n dts h; simp at h
  | cons d rest ih =>
    intro n dts h
    rw [bandLoop]
    rcases List.mem_cons.mp h with h | h
    · subst h; exact List.mem_cons_self _ _
    · exact List.mem_cons_of_mem _ (ih n dts h)

theorem bandLoop_get (bf : List Char → Bool) (pfx : List Char) :
    ∀ (bl : List (List Char)) (n i : Nat) (dts : List Char), bl[i]? = some dts →
      (bandLoop bf pfx bl n)[i]? =
        some (Ev.bandRun pfx dts (outName pfx dts) n (!bf (outName pfx dts))) := by
  intro bl
  induction bl with
  | nil => intro n i dts h; simp at h
  | cons d rest ih =>
    intro n i dts h
    cases i with
    | zero => simp at h; subst h; simp [bandLoop]
    | succ i =>
      rw [bandLoop]
      simpa using ih n i dts (by simpa using h)

theorem goConv_bandRun (bf yf : List Char → Bool) (subs : List (List Char)) :
    ∀ (pfxs : List (List Char)) (i0 : Nat) (p src out : List Char) (n : Nat) (ok : Bool),
      Ev.bandRun p src out n ok ∈ (goConv bf yf subs i0 pfxs).1 →
      src ∈ subs.dropLast ∧ out = outName p src ∧ ok = !bf (outName p src) ∧
        ∃ i, pfxs[i]? = some p ∧ n = i0 + i + 1 := by
  intro pfxs
  induction pfxs with
  | nil => intro i0 p src out n ok h; simp [goConv] at h
  | cons q rest ih =>
    intro i0 p src out n ok h
    by_cases hyf : yf q
    · simp [goConv, hyf] at h
    · rcases hrec : goConv bf yf subs (i0 + 1) rest with ⟨evs2, r2⟩
      have htr : (goConv bf yf subs i0 (q :: rest)).1 =
          (Ev.mkdirEv q :: Ev.yamlWrite q ::
            (bandLoop bf q subs.dropLast (i0 + 1) ++ [Ev.cleanup q])) ++ evs2 := by
        cases r2 <;> simp [goConv, hyf, hrec]
      rw [htr] at h
      rcases List.mem_append.mp h with h | h
      · rcases List.mem_cons.mp h with h | h
        · exact absurd h (by simp)
        rcases List.mem_cons.mp h with h | h
        · exact absurd h (by simp)
        rcases List.mem_append.mp h with h | h
        · obtain ⟨dts, hm, he⟩ := mem_bandLoop bf q subs.dropLast (i0 + 1) _ h
          obtain ⟨hp, hsrc, hout, hn, hok⟩ : p = q ∧ src = dts ∧ out = outName q dts ∧
              n = i0 + 1 ∧ ok = !bf (outName q dts) := by
            cases he; exact ⟨rfl, rfl, rfl, rfl, rfl⟩
          refine ⟨by rw [hsrc]; exact hm, by rw [hout, hp, hsrc],
            by rw [hok, hp, hsrc], 0, by simp [hp], by omega⟩
        · exact absurd h (by simp)
      · obtain ⟨hsrc, hout, hok, i, hget, hn⟩ := ih (i0 + 1) p src out n ok (by rw [hrec]; exact h)
        exact ⟨hsrc, hout, hok, i + 1, by simpa using hget, by omega⟩

theorem goConv_no_rename (bf yf : List Char → Bool) (subs : List (List Char)) :
    ∀ (pfxs : List (List Char)) (i0 : Nat) (p : List Char),
      Ev.renameToUpload p ∉ (goConv bf yf subs i0 pfxs).1 := by
  intro pfxs
  induction pfxs with
  | nil => intro i0 p h; simp [goConv] at h
  | cons q rest ih =>
    intro i0 p h
    by_cases hyf : yf q
    · simp [goConv, hyf] at h
    · rcases hrec : goConv bf yf subs (i0 + 1) rest with ⟨evs2, r2⟩
      have htr : (goConv bf yf subs i0 (q :: rest)).1 =
          (Ev.mkdirEv q :: Ev.yamlWrite q ::
            (bandLoop bf q subs.dropLast (i0 + 1) ++ [Ev.cleanup q])) ++ evs2 := by
        cases r2 <;> simp [goConv, hyf, hrec]
      rw [htr] at h
      rcases List.mem_append.mp h with h | h
      · rcases List.mem_cons.mp h with h | h
        · simp at h
        rcases List.mem_cons.mp h with h | h
        · simp at h
        rcases List.mem_append.mp h with h | h
        · obtain ⟨dts, _, he⟩ := mem_bandLoop bf q subs.dropLast (i0 + 1) _ h
          simp at he
        · simp at h
      · exact ih (i0 + 1) p (by rw [hrec]; exact h)

theorem goConv_no_marker (bf yf : List Char → Bool) (subs : List (List Char)) :
    ∀ (pfxs : List (List Char)) (i0 : Nat) (p d : List Char),
      Ev.markerWrite p d ∉ (goConv bf yf subs i0 pfxs).1 := by
  intro pfxs
  induction pfxs with
  | nil => intro i0 p d h; simp [goConv] at h
  | cons q rest ih =>
    intro i0 p d h
    by_cases hyf : yf q
    · simp [goConv, hyf] at h
    · rcases hrec : goConv bf yf subs (i0 + 1) rest with ⟨evs2, r2⟩
      have htr : (goConv bf yf subs i0 (q :: rest)).1 =
          (Ev.mkdirEv q :: Ev.yamlWrite q ::
            (bandLoop bf q subs.dropLast (i0 + 1) ++ [Ev.cleanup q])) ++ evs2 := by
        cases r2 <;> simp [goConv, hyf, hrec]
      rw [htr] at h
      rcases List.mem_append.mp h with h | h
      · rcases List.mem_cons.mp h with h | h
        · simp at h
        rcases List.mem_cons.mp h with h | h
        · simp at h
        rcases List.mem_append.mp h with h | h
        · obtain ⟨dts, _, he⟩ := mem_bandLoop bf q subs.dropLast (i0 + 1) _ h
          simp at he
        · simp at h
      · exact ih (i0 + 1) p d (by rw [hrec]; exact h)

theorem goConv_ok_bands (bf yf : List Char → Bool) (subs : List (List Char)) :
    ∀ (pfxs : List (List Char)) (i0 : Nat) (ps : List (List Char)) (p : List Char),
      (goConv bf yf subs i0 pfxs).2 = Except.ok ps → p ∈ ps →
      ∀ dts ∈ subs.dropLast, ∃ n,
        Ev.bandRun p dts (outName p dts) n (!bf (outName p dts)) ∈
          (goConv bf yf subs i0 pfxs).1 := by
  intro pfxs
  induction pfxs with
  | nil => intro i0 ps p hok hp; simp [goConv] at hok; subst hok; simp at hp
  | cons q rest ih =>
    intro i0 ps p hok hp
    by_cases hyf : yf q
    · simp [goConv, hyf] at hok
    · rcases hrec : goConv bf yf subs (i0 + 1) rest with ⟨evs2, r2⟩
      cases r2 with
      | error e => simp [goConv, hyf, hrec] at hok
      | ok ps' =>
        have hps : ps = q :: ps' := by simp [goConv, hyf, hrec] at hok; exact hok.symm
        have htr : (goConv bf yf subs i0 (q :: rest)).1 =
            (Ev.mkdirEv q :: Ev.yamlWrite q ::
              (bandLoop bf q subs.dropLast (i0 + 1) ++ [Ev.cleanup q])) ++ evs2 := by
          simp [goConv, hyf, hrec]
        rw [htr]
        intro dts hdts
        subst hps
        rcases List.mem_cons.mp hp with hp | hp
        · subst hp
          exact ⟨i0 + 1, List.mem_append_left _ (List.mem_cons_of_mem _
            (List.mem_cons_of_mem _ (List.mem_append_left _
              (bandLoop_attempted bf p subs.dropLast (i0 + 1) dts hdts))))⟩
        · obtain ⟨n, hn⟩ := ih (i0 + 1) ps' p (by rw [hrec]) hp dts hdts
          exact ⟨n, List.mem_append_right _ (by rw [hrec] at hn; exact hn)⟩

theorem goConv_ok_yaml (bf yf : List Char → Bool) (subs : List (List Char)) :
    ∀ (pfxs : List (List Char)) (i0 : Nat) (ps : List (List Char)) (p : List Char),
      (goConv bf yf subs i0 pfxs).2 = Except.ok ps → p ∈ ps →
      Ev.yamlWrite p ∈ (goConv bf yf subs i0 pfxs).1 := by
  intro pfxs
  induction pfxs with
  | nil => intro i0 ps p hok hp; simp [goConv] at hok; subst hok; simp at hp
  | cons q rest ih =>
    intro i0 ps p hok hp
    by_cases hyf : yf q
    · simp [goConv, hyf] at hok
    · rcases hrec : goConv bf yf subs (i0 + 1) rest with ⟨evs2, r2⟩
      cases r2 with
      | error e => simp [goConv, hyf, hrec] at hok
      | ok ps' =>
        have hps : ps = q :: ps' := by simp [goConv, hyf, hrec] at hok; exact hok.symm
        have htr : (goConv bf yf subs i0 (q :: rest)).1 =
            (Ev.mkdirEv q :: Ev.yamlWrite q ::
              (bandLoop bf q subs.dropLast (i0 + 1) ++ [Ev.cleanup q])) ++ evs2 := by
          simp [goConv, hyf, hrec]
        rw [htr]
        subst hps
        rcases List.mem_cons.mp hp with hp | hp
        · subst hp
          exact List.mem_append_left _ (List.mem_cons_of_mem _ (List.mem_cons_self _ _))
        · exact List.mem_append_right _ (by
            have := ih (i0 + 1) ps' p (by rw [hrec]) hp
            rw [hrec] at this; exact this)

theorem goConv_yaml_of_band (bf yf : List Char → Bool) (subs : List (List Char)) :
    ∀ (pfxs : List (List Char)) (i0 : Nat) (p src out : List Char) (n : Nat) (ok : Bool),
      Ev.bandRun p src out n ok ∈ (goConv bf yf subs i0 pfxs).1 →
      Ev.yamlWrite p ∈ (goConv bf yf subs i0 pfxs).1 := by
  intro pfxs
  induction pfxs with
  | nil => intro i0 p src out n ok h; simp [goConv] at h
  | cons q rest ih =>
    intro i0 p src out n ok h
    by_cases hyf : yf q
    · simp [goConv, hyf] at h
    · rcases hrec : goConv bf yf subs (i0 + 1) rest with ⟨evs2, r2⟩
      have htr : (goConv bf yf subs i0 (q :: rest)).1 =
          (Ev.mkdirEv q :: Ev.yamlWrite q ::
            (bandLoop bf q subs.dropLast (i0 + 1) ++ [Ev.cleanup q])) ++ evs2 := by
        cases r2 <;> simp [goConv, hyf, hrec]
      rw [htr] at h ⊢
      rcases List.mem_append.mp h with h | h
      · rcases List.mem_cons.mp h with h | h
        · simp at h
        rcases List.mem_cons.mp h with h | h
        · simp at h
        rcases List.mem_append.mp h with h | h
        · obtain ⟨dts, _, he⟩ := mem_bandLoop bf q subs.dropLast (i0 + 1) _ h
          have hp : p = q := by cases he; rfl
          subst hp
          exact List.mem_append_left _ (List.mem_cons_of_mem _ (List.mem_cons_self _ _))
        · simp at h
      · refine List.mem_append_right _ ?_
        have hy := ih (i0 + 1) p src out n ok (by rw [hrec]; exact h)
        rw [hrec] at hy
        exact hy

theorem append_eq_cons_split {α : Type} {a b l r : List α} {x : α}
    (h : a ++ b = l ++ x :: r) (hx : x ∉ a) :
    ∃ l2, l = a ++ l2 ∧ b = l2 ++ x :: r := by
  induction a generalizing l with
  | nil => exact ⟨l, rfl, h⟩
  | cons c a2 ih =>
    cases l with
    | nil =>
      simp at h
      exact absurd (h.1 ▸ List.mem_cons_self c a2) hx
    | cons c2 l2 =>
      simp at h
      have hx2 : x ∉ a2 := fun hm => hx (List.mem_cons_of_mem _ hm)
      obtain ⟨l3, hl, hb⟩ := ih h.2 hx2
      exact ⟨l3, by simp [h.1, hl], hb⟩

theorem postAll_marker (cfg : Cfg) :
    ∀ (ps : List (List Char)) (p d : List Char),
      Ev.markerWrite p d ∈ (postAll cfg ps).1 → aws_dir cfg p = Except.ok d := by
  intro ps
  induction ps with
  | nil => intro p d h; simp [postAll] at h
  | cons q rest ih =>
    intro p d h
    cases haws : aws_dir cfg q with
    | error e => simp [postAll, haws] at h
    | ok dq =>
      rcases hpa : postAll cfg rest with ⟨evs2, err2⟩
      rw [postAll, haws, hpa] at h
      rcases List.mem_cons.mp h with h | h
      · obtain ⟨hp, hd⟩ : p = q ∧ d = dq := by cases h; exact ⟨rfl, rfl⟩
        rw [hp, hd]; exact haws
      rcases List.mem_cons.mp h with h | h
      · simp at h
      · have := ih p d (by rw [hpa]; exact h)
        exact this

theorem postAll_rename_split (cfg : Cfg) :
    ∀ (ps : List (List Char)) (l2 r : List Ev) (p : List Char),
      (postAll cfg ps).1 = l2 ++ Ev.renameToUpload p :: r →
      (∃ d, Ev.markerWrite p d ∈ l2) ∧ p ∈ ps := by
  intro ps
  induction ps with
  | nil =>
    intro l2 r p h
    simp [postAll] at h
  | cons q rest ih =>
    intro l2 r p h
    cases haws : aws_dir cfg q with
    | error e =>
      rw [postAll, haws] at h
      simp at h
    | ok dq =>
      rcases hpa : postAll cfg rest with ⟨evs2, err2⟩
      rw [postAll, haws, hpa] at h
      cases l2 with
      | nil => simp at h
      | cons e1 l3 =>
        simp only [List.cons_append, List.cons.injEq] at h
        cases l3 with
        | nil =>
          simp at h
          obtain ⟨he1, hq, hevs⟩ := h
          subst hq
          exact ⟨⟨dq, by rw [he1]; exact List.mem_cons_self _ _⟩,
            List.mem_cons_self _ _⟩
        | cons e2 l4 =>
          obtain ⟨he1, h2⟩ := h
          simp only [List.cons_append, List.cons.injEq] at h2
          obtain ⟨he2, hevs⟩ := h2
          obtain ⟨⟨d, hd⟩, hmem⟩ := ih l4 r p (by rw [hpa]; exact hevs)
          exact ⟨⟨d, List.mem_cons_of_mem _ (List.mem_cons_of_mem _ hd)⟩,
            List.mem_cons_of_mem _ hmem⟩

theorem postAll_rename_mem (cfg : Cfg) :
    ∀ (ps : List (List Char)) (p : List Char),
      Ev.renameToUpload p ∈ (postAll cfg ps).1 → p ∈ ps := by
  intro ps
  induction ps with
  | nil => intro p h; simp [postAll] at h
  | cons q rest ih =>
    intro p h
    cases haws : aws_dir cfg q with
    | error e => simp [postAll, haws] at h
    | ok dq =>
      rcases hpa : postAll cfg rest with ⟨evs2, err2⟩
      rw [postAll, haws, hpa] at h
      rcases List.mem_cons.mp h with h | h
      · simp at h
      rcases List.mem_cons.mp h with h | h
      · obtain hp : p = q := by cases h; rfl
        rw [hp]; exact List.mem_cons_self _ _
      · exact List.mem_cons_of_mem _ (ih p (by rw [hpa]; exact h))

theorem writes_of_yaml :
    ∀ (evs : List Ev) (p : List Char),
      Ev.yamlWrite p ∈ evs → (p ++ strL ".yaml") ∈ writesOfEvents evs := by
  intro evs
  induction evs with
  | nil => intro p h; simp at h
  | cons e rest ih =>
    intro p h
    rcases List.mem_cons.mp h with h | h
    · rw [← h]; simp [writesOfEvents]
    · have hr := ih p h
      cases e with
      | yamlWrite q => exact List.mem_cons_of_mem _ hr
      | bandRun q src out n ok =>
        cases ok with
        | true => exact List.mem_cons_of_mem _ hr
        | false => simpa [writesOfEvents] using hr
      | markerWrite q c => exact List.mem_cons_of_mem _ hr
      | mkdirEv q => simpa [writesOfEvents] using hr
      | cleanup q => simpa [writesOfEvents] using hr
      | renameToUpload q => simpa [writesOfEvents] using hr

theorem writes_of_band :
    ∀ (evs : List Ev) (p src out : List Char) (n : Nat),
      Ev.bandRun p src out n true ∈ evs → out ∈ writesOfEvents evs := by
  intro evs
  induction evs with
  | nil => intro p src out n h; simp at h
  | cons e rest ih =>
    intro p src out n h
    rcases List.mem_cons.mp h with h | h
    · rw [← h]; simp [writesOfEvents]
    · have hr := ih p src out n h
      cases e with
      | yamlWrite q => exact List.mem_cons_of_mem _ hr
      | bandRun q src2 out2 n2 ok =>
        cases ok with
        | true => exact List.mem_cons_of_mem _ hr
        | false => simpa [writesOfEvents] using hr
      | markerWrite q c => exact List.mem_cons_of_mem _ hr
      | mkdirEv q => simpa [writesOfEvents] using hr
      | cleanup q => simpa [writesOfEvents] using hr
      | renameToUpload q => simpa [writesOfEvents] using hr

def noFail : List Char → Bool := fun _ => false

def cexSubs : List (List Char) :=
  [strL "NETCDF:f.nc:water", strL "NETCDF:f.nc:extra", strL "NETCDF:f.nc:crs"]

def cexPfx : List Char := strL "LS_WATER_3577_9_-39_20180506102018"

def cexFile : List Char := strL "LS_WATER_3577_9_-39_20180506102018_v1.nc"

def cexTimes : List (List Char) := [strL "20180506102018"]

/-- Failure oracle making exactly the first retained band's external
commands raise. -/
def cexBf : List Char → Bool :=
  fun o => o == outName (strL "LS_WATER_3577_9_-39_20180506102018") (strL "NETCDF:f.nc:water")

/-- C10: the converter never runs the band pipeline for the last
subdataset reported by the raster engine (the loop iterates
`subdatasets[:-1]`), and the dataset at zero-based index `i` within the
file extracts raster band number `i + 1` from each retained subdataset. -/
theorem converter_band_selection :
    ∀ (bf yf : List Char → Bool) (cfg : Cfg) (times subs : List (List Char))
      (file p src out : List Char) (n : Nat) (ok : Bool),
      Ev.bandRun p src out n ok ∈ (netcdfRun bf yf cfg times subs file).1 →
      src ∈ subs.dropLast ∧ out = outName p src ∧
        ∃ pfxs i, get_unstacked_names cfg times file = Except.ok pfxs ∧
          pfxs[i]? = some p ∧ n = i + 1 := by
  intro bf yf cfg times subs file p src out n ok h
  cases hgu : get_unstacked_names cfg times file with
  | error e => simp [netcdfRun, hgu] at h
  | ok pfxs =>
    simp only [netcdfRun, hgu] at h
    obtain ⟨hsrc, hout, hok2, i, hget, hn⟩ := goConv_bandRun bf yf subs pfxs 0 p src out n ok h
    exact ⟨hsrc, hout, pfxs, i, rfl, hget, by omega⟩

/-- Witness for `converter_band_selection` on a concrete conversion: the
first subdataset's band event occurs and is characterised as retained
(not-last) with band number `0 + 1`. -/
theorem converter_band_selection_witness :
    (Ev.bandRun cexPfx (strL "NETCDF:f.nc:water")
        (outName cexPfx (strL "NETCDF:f.nc:water")) 1 true ∈
        (netcdfRun noFail noFail wofsCfg cexTimes cexSubs cexFile).1) ∧
    (strL "NETCDF:f.nc:water" ∈ cexSubs.dropLast ∧
      outName cexPfx (strL "NETCDF:f.nc:water") = outName cexPfx (strL "NETCDF:f.nc:water") ∧
      ∃ pfxs i, get_unstacked_names wofsCfg cexTimes cexFile = Except.ok pfxs ∧
        pfxs[i]? = some cexPfx ∧ 1 = i + 1) :=
  ⟨by decide,
    converter_band_selection noFail noFail wofsCfg cexTimes cexSubs cexFile cexPfx
      (strL "NETCDF:f.nc:water") (outName cexPfx (strL "NETCDF:f.nc:water")) 1 true
      (by decide)⟩

/-- C3 counterexample: with the first retained band's external commands
failing (`cexBf`), the band loop still attempts the second retained band —
the exception is caught and logged inside the per-band loop, so the
remaining bands of the subdataset list are not aborted, contrary to the
claim: the trace records band one attempted and failed (`ok = false`)
followed by band two attempted and succeeding (`ok = true`). -/
theorem converter_band_abort_cex :
    bandLoop cexBf cexPfx cexSubs.dropLast 1 =
      [Ev.bandRun cexPfx (strL "NETCDF:f.nc:water")
          (outName cexPfx (strL "NETCDF:f.nc:water")) 1 false,
        Ev.bandRun cexPfx (strL "NETCDF:f.nc:extra")
          (outName cexPfx (strL "NETCDF:f.nc:extra")) 1 true] := by decide

/-- C3 (amended): an exception raised during the extract/pyramid/re-encode
steps of one band is caught and logged inside the band loop, and the
remaining bands of that subdataset list are still attempted — the `i`-th
retained subdataset always yields the `i`-th attempted-band event, whatever
the failure oracle says about other bands — and the metadata document is
produced for the dataset regardless: the yaml of prefix `p` is in the trace
whenever any band of `p` was attempted (the yaml step precedes the band
loop in `netcdf_to_cog`). -/
theorem converter_band_failure_policy :
    (∀ (bf : List Char → Bool) (pfx : List Char) (bl : List (List Char)) (n i : Nat)
      (dts : List Char), bl[i]? = some dts →
      (bandLoop bf pfx bl n)[i]? =
        some (Ev.bandRun pfx dts (outName pfx dts) n (!bf (outName pfx dts)))) ∧
    (∀ (bf yf : List Char → Bool) (cfg : Cfg) (times subs : List (List Char))
      (file p src out : List Char) (n : Nat) (ok : Bool),
      Ev.bandRun p src out n ok ∈ (netcdfRun bf yf cfg times subs file).1 →
      Ev.yamlWrite p ∈ (netcdfRun bf yf cfg times subs file).1) := by
  constructor
  · exact fun bf pfx bl n i dts h => bandLoop_get bf pfx bl n i dts h
  · intro bf yf cfg times subs file p src out n ok h
    cases hgu : get_unstacked_names cfg times file with
    | error e => simp [netcdfRun, hgu] at h
    | ok pfxs =>
      simp only [netcdfRun, hgu] at h ⊢
      exact goConv_yaml_of_band bf yf subs pfxs 0 p src out n ok h

/-- Witness for `converter_band_failure_policy`: with the first band
failing, the second band is still the second attempted event; and on a
concrete all-success conversion the yaml write is in the trace. -/
theorem converter_band_failure_policy_witness :
    (bandLoop cexBf cexPfx cexSubs.dropLast 1)[1]? =
      some (Ev.bandRun cexPfx (strL "NETCDF:f.nc:extra")
        (outName cexPfx (strL "NETCDF:f.nc:extra")) 1
        (!cexBf (outName cexPfx (strL "NETCDF:f.nc:extra")))) ∧
    Ev.yamlWrite cexPfx ∈ (netcdfRun noFail noFail wofsCfg cexTimes cexSubs cexFile).1 :=
  ⟨converter_band_failure_policy.1 cexBf cexPfx cexSubs.dropLast 1 1
      (strL "NETCDF:f.nc:extra") (by decide),
    converter_band_failure_policy.2 noFail noFail wofsCfg cexTimes cexSubs cexFile cexPfx
      (strL "NETCDF:f.nc:water") (outName cexPfx (strL "NETCDF:f.nc:water")) 1 true
      (by decide)⟩

/-- Modelled from the spec's words for the idempotence claim: a run "skips
entirely" every output that already exists, i.e. no write of the run
touches a pre-existing path. -/
def claimSkipsPreexisting (fs : List (List Char)) (evs : List Ev) : Prop :=
  ∀ pth ∈ writesOfEvents evs, pth ∉ fs

/-- Trace of a concrete all-success conversion of `cexFile`. -/
def cexRunEvs : List Ev :=
  (netcdfRun noFail noFail wofsCfg cexTimes cexSubs cexFile).1

/-- C2 counterexample: neither `_dataset_to_yaml` nor `_dataset_to_cog`
checks whether its target output exists, so a run's writes are a function
of the inputs alone; running the converter a second time over the same
input and destination produces the same trace, whose yaml write hits a
path that already exists after the first run — the second run does not
skip the pre-existing output. -/
theorem converter_not_idempotent_cex :
    ¬ claimSkipsPreexisting (fsAfterRun [] cexRunEvs) cexRunEvs :=
  fun hcl => hcl (cexPfx ++ strL ".yaml") (by decide) (by decide)

/-- C2 (amended): re-running the converter regenerates rather than skips:
no existence check occurs, so on every run (first or repeated alike) the
metadata document of each produced dataset is written anew (the yaml file
is opened in write mode) and every band whose external commands succeed is
re-encoded at its destination path — pre-existing outputs are overwritten,
not skipped. -/
theorem converter_regenerates :
    ∀ (bf yf : List Char → Bool) (cfg : Cfg) (times subs : List (List Char))
      (file : List Char) (ps : List (List Char)) (p : List Char),
      (netcdfRun bf yf cfg times subs file).2 = Except.ok ps → p ∈ ps →
      (p ++ strL ".yaml") ∈ writesOfEvents (netcdfRun bf yf cfg times subs file).1 ∧
      ∀ dts ∈ subs.dropLast, bf (outName p dts) = false →
        outName p dts ∈ writesOfEvents (netcdfRun bf yf cfg times subs file).1 := by
  intro bf yf cfg times subs file ps p hok hp
  cases hgu : get_unstacked_names cfg times file with
  | error e => simp [netcdfRun, hgu] at hok
  | ok pfxs =>
    simp only [netcdfRun, hgu] at hok ⊢
    constructor
    · exact writes_of_yaml _ p (goConv_ok_yaml bf yf subs pfxs 0 ps p hok hp)
    · intro dts hdts hbf
      obtain ⟨n, hn⟩ := goConv_ok_bands bf yf subs pfxs 0 ps p hok hp dts hdts
      simp only [hbf, Bool.not_false] at hn
      exact writes_of_band _ p dts (outName p dts) n hn

/-- Witness for `converter_regenerates` on the concrete conversion. -/
theorem converter_regenerates_witness :
    (cexPfx ++ strL ".yaml") ∈ writesOfEvents cexRunEvs ∧
      ∀ dts ∈ cexSubs.dropLast, noFail (outName cexPfx dts) = false →
        outName cexPfx dts ∈ writesOfEvents cexRunEvs :=
  converter_regenerates noFail noFail wofsCfg cexTimes cexSubs cexFile [cexPfx] cexPfx
    (by decide) (by decide)

def cexResults : List (Except StreamErr (List (List Char))) :=
  [Except.error StreamErr.workerFailure, Except.ok [cexPfx]]

/-- C1 counterexample: `convert_cog` calls `future.result()` with no
try/except around it, so when the first-drained future carries a worker's
unhandled exception the scheduler loop aborts: the other, successfully
converted file gets no marker write and no rename at all (the
post-processing trace is empty) — a single per-file failure does abort the
overall batch instead of being isolated. -/
theorem scheduler_not_isolating_cex :
    drainResults wofsCfg cexResults = ([], some StreamErr.workerFailure) := by decide

/-- C1 (amended): per-band errors inside a worker are isolated and logged,
but a worker's unhandled exception is not: it propagates through
`future.result()` in the scheduler loop and aborts the batch — only the
post-processing of futures drained before the failing one survives, and
every file drained after it is left without marker or rename. -/
theorem scheduler_abort_on_worker_failure :
    ∀ (cfg : Cfg) (xs : List (Except StreamErr (List (List Char)))) (evs : List Ev)
      (e : StreamErr) (ys : List (Except StreamErr (List (List Char)))),
      drainResults cfg xs = (evs, none) →
      drainResults cfg (xs ++ Except.error e :: ys) = (evs, some e) := by
  intro cfg xs
  induction xs with
  | nil =>
    intro evs e ys h
    simp [drainResults] at h
    simp [drainResults, ← h]
  | cons x rest ih =>
    intro evs e ys h
    cases x with
    | error f => simp [drainResults] at h
    | ok ps =>
      rcases hpa : postAll cfg ps with ⟨evs1, err1⟩
      cases err1 with
      | some f => simp [drainResults, hpa] at h
      | none =>
        rcases hdr : drainResults cfg rest with ⟨evs2, err2⟩
        simp only [drainResults, hpa, hdr] at h
        obtain ⟨hevs, herr⟩ := Prod.mk.injEq .. ▸ h
        cases err2 with
        | some f => simp at herr
        | none =>
          have hrec := ih evs2 e ys hdr
          simp only [List.cons_append, drainResults, hpa]
          have hrec2 : drainResults cfg (rest.append (Except.error e :: ys)) = (evs2, some e) :=
            hrec
          rw [← hevs, hrec2]

/-- Post-processing events of the one successfully converted file used in
the scheduler witness. -/
def cexOkEvs : List Ev :=
  [Ev.markerWrite cexPfx (strL "x_9/y_-39/2018/05/06"), Ev.renameToUpload cexPfx]

/-- Witness for `scheduler_abort_on_worker_failure`: one successful future
drained first, then a failed future — its error is re-raised after the
first file's post-processing. -/
theorem scheduler_abort_on_worker_failure_witness :
    drainResults wofsCfg
        ([Except.ok [cexPfx]] ++ Except.error StreamErr.workerFailure :: []) =
      (cexOkEvs, some StreamErr.workerFailure) :=
  scheduler_abort_on_worker_failure wofsCfg [Except.ok [cexPfx]] cexOkEvs
    StreamErr.workerFailure [] (by decide)

/-- C4 counterexample: for the spec's scenario prefix the marker content
written by `convert_cog` is `aws_dir(prefix)` — the relative suffix only —
which differs from the fully-qualified
`bucket + '/' + aws_dir + '/' + suffix` that `aws_destination` computes
(and which `convert_cog` never calls); and the Upload Watcher does not use
the marker verbatim: its sync target prefixes the CLI
`--upload-destination` value to the marker's first line. -/
theorem marker_content_cex :
    (drainResults wofsCfg [Except.ok [strL "LS_WATER_3577_3_-40_20180102030405"]]).1 =
      [Ev.markerWrite (strL "LS_WATER_3577_3_-40_20180102030405")
          (strL "x_3/y_-40/2018/01/02"),
        Ev.renameToUpload (strL "LS_WATER_3577_3_-40_20180102030405")] ∧
    aws_destination wofsCfg (strL "LS_WATER_3577_3_-40_20180102030405") =
      Except.ok
        (strL "s3://dea-public-data-dev/WOfS/WOFLs/v2.1.0/combined/x_3/y_-40/2018/01/02") ∧
    strL "x_3/y_-40/2018/01/02" ≠
      strL "s3://dea-public-data-dev/WOfS/WOFLs/v2.1.0/combined/x_3/y_-40/2018/01/02" ∧
    syncTarget (strL "s3://dea-public-data") (strL "x_3/y_-40/2018/01/02") ≠
      strL "x_3/y_-40/2018/01/02" := by decide

/-- C4 (amended): every upload destination marker written during scheduler
post-processing records exactly `aws_dir(prefix)` — the relative
destination suffix, with neither the bucket nor the configured aws
directory (`aws_destination` is unused by `convert_cog`) — and the Upload
Watcher forms its sync target by prefixing its CLI upload destination to
the marker's first line rather than using the marker's content verbatim. -/
theorem marker_records_suffix :
    ∀ (cfg : Cfg) (rs : List (Except StreamErr (List (List Char)))) (p d : List Char),
      Ev.markerWrite p d ∈ (drainResults cfg rs).1 →
      aws_dir cfg p = Except.ok d ∧
        ∀ ud, syncTarget ud d = ud ++ '/' :: firstLine d := by
  intro cfg rs
  induction rs with
  | nil => intro p d h; simp [drainResults] at h
  | cons x rest ih =>
    intro p d h
    cases x with
    | error f => simp [drainResults] at h
    | ok ps =>
      rcases hpa : postAll cfg ps with ⟨evs1, err1⟩
      cases err1 with
      | some f =>
        simp only [drainResults, hpa] at h
        exact ⟨postAll_marker cfg ps p d (by rw [hpa]; exact h), fun ud => rfl⟩
      | none =>
        rcases hdr : drainResults cfg rest with ⟨evs2, err2⟩
        simp only [drainResults, hpa, hdr] at h
        rcases List.mem_append.mp h with h | h
        · exact ⟨postAll_marker cfg ps p d (by rw [hpa]; exact h), fun ud => rfl⟩
        · exact ih p d (by rw [hdr]; exact h)

/-- Witness for `marker_records_suffix` at the concrete scenario dataset. -/
theorem marker_records_suffix_witness :
    aws_dir wofsCfg (strL "LS_WATER_3577_3_-40_20180102030405") =
        Except.ok (strL "x_3/y_-40/2018/01/02") ∧
      syncTarget (strL "s3://dea-public-data") (strL "x_3/y_-40/2018/01/02") =
        strL "s3://dea-public-data" ++ '/' :: firstLine (strL "x_3/y_-40/2018/01/02") :=
  ⟨(marker_records_suffix wofsCfg [Except.ok [strL "LS_WATER_3577_3_-40_20180102030405"]]
      (strL "LS_WATER_3577_3_-40_20180102030405") (strL "x_3/y_-40/2018/01/02")
      (by decide)).1,
    (marker_records_suffix wofsCfg [Except.ok [strL "LS_WATER_3577_3_-40_20180102030405"]]
      (strL "LS_WATER_3577_3_-40_20180102030405") (strL "x_3/y_-40/2018/01/02")
      (by decide)).2 (strL "s3://dea-public-data")⟩

/-- C5 counterexample: marker present, retention requested, sync succeeds,
but the `mv` into COMPLETE fails — the failure is only logged, the dataset
stays in TO_UPLOAD and is not moved to FAILED, contrary to the claim that
a failed move-to-COMPLETE step sends the dataset to FAILED. -/
theorem upload_disposition_cex :
    processDataset true true ⟨true, true, false, true⟩ = Outcome.toUpload ∧
    Outcome.toUpload ≠ Outcome.failedDir := by decide

/-- C5 (amended): for a marked dataset picked up in a poll cycle: on sync
failure it is moved to FAILED when that move succeeds, and stays in
TO_UPLOAD (with a logged error) when the move itself fails; after a
successful sync it is moved to COMPLETE (retention requested) or deleted
recursively, and a failure of that final move/delete step is only logged,
leaving the dataset in TO_UPLOAD — it is never moved to FAILED after a
successful sync. -/
theorem upload_disposition :
    ∀ (retain : Bool) (o : UpOracle),
      (o.syncOk = false → o.mvFailedOk = true →
        processDataset true retain o = Outcome.failedDir) ∧
      (o.syncOk = false → o.mvFailedOk = false →
        processDataset true retain o = Outcome.toUpload) ∧
      (o.syncOk = true → retain = true → o.mvCompleteOk = true →
        processDataset true retain o = Outcome.completeDir) ∧
      (o.syncOk = true → retain = true → o.mvCompleteOk = false →
        processDataset true retain o = Outcome.toUpload) ∧
      (o.syncOk = true → retain = false → o.rmOk = true →
        processDataset true retain o = Outcome.deleted) ∧
      (o.syncOk = true → retain = false → o.rmOk = false →
        processDataset true retain o = Outcome.toUpload) := by
  intro retain o
  rcases o with ⟨s, mf, mc, r⟩
  cases retain <;> cases s <;> cases mf <;> cases mc <;> cases r <;> decide

/-- Witness for `upload_disposition`: a failed sync with a succeeding move
lands the dataset in FAILED. -/
theorem upload_disposition_witness :
    processDataset true true ⟨false, true, true, true⟩ = Outcome.failedDir :=
  (upload_disposition true ⟨false, true, true, true⟩).1 rfl rfl

theorem netcdfRun_no_rename :
    ∀ (bf yf : List Char → Bool) (cfg : Cfg) (times subs : List (List Char))
      (file p : List Char),
      Ev.renameToUpload p ∉ (netcdfRun bf yf cfg times subs file).1 := by
  intro bf yf cfg times subs file p h
  cases hgu : get_unstacked_names cfg times file with
  | error e => simp [netcdfRun, hgu] at h
  | ok pfxs =>
    simp only [netcdfRun, hgu] at h
    exact goConv_no_rename bf yf subs pfxs 0 p h

/-- C9: a dataset directory leaves WORKING for TO_UPLOAD only after both
its upload destination marker was written and every retained subdataset's
band was attempted (possibly failing, with the failure only logged): in
any end-to-end trace, everything preceding a rename event of prefix `p`
already contains a marker write for `p` and a band attempt for every
retained subdataset of `p`'s file. -/
theorem rename_after_marker_and_bands :
    ∀ (bf yf : List Char → Bool) (cfg : Cfg) (times subs : List (List Char))
      (file p : List Char) (l r : List Ev),
      (fileRun bf yf cfg times subs file).1 = l ++ Ev.renameToUpload p :: r →
      (∃ d, Ev.markerWrite p d ∈ l) ∧
      ∀ dts ∈ subs.dropLast, ∃ n,
        Ev.bandRun p dts (outName p dts) n (!bf (outName p dts)) ∈ l := by
  intro bf yf cfg times subs file p l r h
  cases hgu : get_unstacked_names cfg times file with
  | error e => simp [fileRun, netcdfRun, hgu] at h
  | ok pfxs =>
    rcases hgc : goConv bf yf subs 0 pfxs with ⟨evs1, res⟩
    cases res with
    | error e =>
      simp only [fileRun, netcdfRun, hgu, hgc] at h
      have hmem : Ev.renameToUpload p ∈ evs1 := by
        rw [h]
        exact List.mem_append_right l (List.mem_cons_self _ r)
      have hno := goConv_no_rename bf yf subs pfxs 0 p
      rw [hgc] at hno
      exact absurd hmem hno
    | ok ps =>
      rcases hpa : postAll cfg ps with ⟨evs2, err⟩
      simp only [fileRun, netcdfRun, hgu, hgc, hpa] at h
      have hnr : Ev.renameToUpload p ∉ evs1 := by
        intro hm
        have hno := goConv_no_rename bf yf subs pfxs 0 p
        rw [hgc] at hno
        exact hno hm
      obtain ⟨l2, hl, hb⟩ := append_eq_cons_split h hnr
      obtain ⟨⟨d, hd⟩, hmem⟩ := postAll_rename_split cfg ps l2 r p (by rw [hpa]; exact hb)
      refine ⟨⟨d, by rw [hl]; exact List.mem_append_right _ hd⟩, ?_⟩
      intro dts hdts
      obtain ⟨n, hn⟩ := goConv_ok_bands bf yf subs pfxs 0 ps p (by rw [hgc]) hmem dts hdts
      rw [hgc] at hn
      exact ⟨n, by rw [hl]; exact List.mem_append_left _ hn⟩

/-- Everything preceding the rename event in the concrete end-to-end trace
of `cexFile`. -/
def cexFullL : List Ev :=
  [Ev.mkdirEv cexPfx, Ev.yamlWrite cexPfx,
    Ev.bandRun cexPfx (strL "NETCDF:f.nc:water")
      (outName cexPfx (strL "NETCDF:f.nc:water")) 1 true,
    Ev.bandRun cexPfx (strL "NETCDF:f.nc:extra")
      (outName cexPfx (strL "NETCDF:f.nc:extra")) 1 true,
    Ev.cleanup cexPfx,
    Ev.markerWrite cexPfx (strL "x_9/y_-39/2018/05/06")]

/-- Witness for `rename_after_marker_and_bands` on the concrete end-to-end
run of `cexFile`. -/
theorem rename_after_marker_and_bands_witness :
    (∃ d, Ev.markerWrite cexPfx d ∈ cexFullL) ∧
    ∀ dts ∈ cexSubs.dropLast, ∃ n,
      Ev.bandRun cexPfx dts (outName cexPfx dts) n (!noFail (outName cexPfx dts)) ∈
        cexFullL :=
  rename_after_marker_and_bands noFail noFail wofsCfg cexTimes cexSubs cexFile cexPfx
    cexFullL [] (by decide)

theorem wcycle_frozen {listed okp : Nat} {s : WState} (h : s.stopped = true) :
    wcycle listed okp s = s := by
  simp [wcycle, h]

theorem runW_stopped_mono (sch : WSched) :
    ∀ n, (runW sch n).stopped = true → (runW sch (n + 1)).stopped = true := by
  intro n h
  show (wcycle (sch.listed n) (sch.okProcessed n) (runW sch n)).stopped = true
  rw [wcycle_frozen h]
  exact h

theorem runW_stopped_le (sch : WSched) :
    ∀ m n, m ≤ n → (runW sch m).stopped = true → (runW sch n).stopped = true := by
  intro m n hmn h
  induction n, hmn using Nat.le_induction with
  | base => exact h
  | succ n hmn ih => exact runW_stopped_mono sch n ih

theorem runW_time (sch : WSched) :
    ∀ n, (runW sch n).stopped = false → (runW sch n).time = n := by
  intro n
  induction n with
  | zero => intro _; rfl
  | succ n ih =>
    intro h
    cases hs : (runW sch n).stopped with
    | true => exact absurd (runW_stopped_mono sch n hs) (by simp [h])
    | false =>
      show (wcycle (sch.listed n) (sch.okProcessed n) (runW sch n)).time = n + 1
      simp [wcycle, hs, ih hs]

theorem runW_tlu (sch : WSched) (j : Nat) (hj : 0 < sch.listed j)
    (hafter : ∀ k, j < k → sch.listed k = 0) :
    ∀ n, j < n → (runW sch n).stopped = false →
      (runW sch n).timeLastUpload = some j := by
  intro n
  induction n with
  | zero => intro hjn _; omega
  | succ n ih =>
    intro hjn h
    have hsn : (runW sch n).stopped = false := by
      cases hs : (runW sch n).stopped with
      | true => exact absurd (runW_stopped_mono sch n hs) (by simp [h])
      | false => rfl
    rcases (by omega : j < n ∨ j = n) with hlt | heq
    · have htlu := ih hlt hsn
      have hl0 := hafter n hlt
      show (wcycle (sch.listed n) (sch.okProcessed n) (runW sch n)).timeLastUpload = some j
      simp [wcycle, hsn, hl0, htlu]
    · subst heq
      have ht := runW_time sch j hsn
      show (wcycle (sch.listed j) (sch.okProcessed j) (runW sch j)).timeLastUpload = some j
      simp [wcycle, hsn, hj, ht]

/-- C6 (amended): the source's `time_last_upload` is refreshed by every
dataset listed in a poll cycle, whether or not it was successfully
processed, so the idle timeout is tied to the last cycle that listed
anything rather than to the last successfully processed dataset:
(a) if no dataset directory is ever listed, the watcher never terminates;
(b) once some cycle `j` lists a dataset and no later cycle lists any, the
watcher has terminated by cycle `j + idle_threshold + 1` (within the idle
threshold plus one poll interval of the last listing). -/
theorem watcher_idle_exit :
    (∀ sch : WSched, (∀ k, sch.listed k = 0) → ∀ n, (runW sch n).stopped = false) ∧
    (∀ (sch : WSched) (j : Nat), 0 < sch.listed j →
      (∀ k, j < k → sch.listed k = 0) →
      ∀ n, j + maxWaitWithoutUpload + 1 ≤ n → (runW sch n).stopped = true) := by
  constructor
  · intro sch h
    have key : ∀ n, (runW sch n).stopped = false ∧
        (runW sch n).timeLastUpload = none := by
      intro n
      induction n with
      | zero => exact ⟨rfl, rfl⟩
      | succ n ih =>
        have h2 : (runW sch (n + 1)) =
            wcycle (sch.listed n) (sch.okProcessed n) (runW sch n) := rfl
        rw [h2]
        simp [wcycle, ih.1, ih.2, h n]
    exact fun n => (key n).1
  · intro sch j hj hafter n hn
    have hmw : maxWaitWithoutUpload = 300 := rfl
    have key : (runW sch (j + maxWaitWithoutUpload + 1)).stopped = true := by
      cases hs : (runW sch (j + maxWaitWithoutUpload)).stopped with
      | true => exact runW_stopped_mono sch (j + maxWaitWithoutUpload) hs
      | false =>
        have htlu := runW_tlu sch j hj hafter (j + maxWaitWithoutUpload)
          (by omega) hs
        have ht := runW_time sch (j + maxWaitWithoutUpload) hs
        have hl0 := hafter (j + maxWaitWithoutUpload) (by omega)
        show (wcycle (sch.listed (j + maxWaitWithoutUpload))
          (sch.okProcessed (j + maxWaitWithoutUpload))
          (runW sch (j + maxWaitWithoutUpload))).stopped = true
        simp [wcycle, hs, hl0, htlu, ht]
        omega
    exact runW_stopped_le sch _ n hn key

/-- Schedule in which one dataset is successfully processed in cycle 0 and
afterwards a (for instance marker-less, hence never processed) dataset is
listed in every cycle. -/
def cexSched : WSched where
  listed := fun _ => 1
  okProcessed := fun k => if k = 0 then 1 else 0

set_option maxRecDepth 8000 in
/-- C6 counterexample: a dataset that never gains a marker stays in
TO_UPLOAD and refreshes `time_last_upload` in every poll cycle merely by
being listed; 400 cycles (seconds) after the only successfully processed
dataset (time 0, cycle 0) the watcher is still running — it did not exit
within `idle_threshold + poll_interval` (301 seconds) of the last
successfully processed dataset, contrary to the claim. -/
theorem watcher_timeout_cex :
    runW cexSched 400 = ⟨400, some 399, some 0, false⟩ ∧
    maxWaitWithoutUpload + 1 < 400 := by
  constructor
  · decide
  · decide

/-- Watcher schedule that never lists anything. -/
def silentSched : WSched where
  listed := fun _ => 0
  okProcessed := fun _ => 0

/-- Watcher schedule listing and processing one dataset in cycle 0 only. -/
def oneShotSched : WSched where
  listed := fun k => if k = 0 then 1 else 0
  okProcessed := fun k => if k = 0 then 1 else 0

/-- Witness for `watcher_idle_exit`: with nothing ever listed the watcher
is still polling after 5 cycles, and with a single listing at cycle 0 it
has stopped by cycle 301. -/
theorem watcher_idle_exit_witness :
    (runW silentSched 5).stopped = false ∧ (runW oneShotSched 301).stopped = true :=
  ⟨watcher_idle_exit.1 silentSched (fun _ => rfl) 5,
    watcher_idle_exit.2 oneShotSched 0 (by decide)
      (fun k hk => by
        have hk0 : k ≠ 0 := by omega
        simp [oneShotSched, hk0]) 301 (by decide)⟩
